import Mathlib

/-!
Shallow embedding of the `AudioStreamer` class (streaming PCM16 audio
scheduler with ambient pad and keep-alive) and proofs of the specification
claims about it.

Modelling conventions:
* Audio samples are rationals: the source stores only values of the form
  `int16 / 32768`, which IEEE floats represent exactly, so `ℚ` is a faithful
  carrier for every value the code can produce.
* Times on the audio-context clock are rationals; `now` (the source's
  `context.currentTime`) is passed explicitly to each operation; it is sampled
  once per scheduling pass.
* Web Audio node objects are modelled by the data the claims observe:
  buffer-source units by numeric ids plus the `onended` handler currently
  installed on them, the pad graph by records of its oscillator, filter and
  gain parameters.
* Randomness (oscillator detune) is externalized as an explicit argument, and
  timer callbacks are externalized as explicit trace operations.
-/

set_option maxHeartbeats 1000000

abbrev Byte := Fin 256

/-- `sampleRate` field of `AudioStreamer`: 24000 Hz. -/
def sampleRate : ℚ := 24000

/-- `bufferSize` field of `AudioStreamer`: 7680 samples per block. -/
def bufferSize : Nat := 7680

/-- `initialBufferTime` field of `AudioStreamer`: 100 ms. -/
def initialBufferTime : ℚ := 1 / 10

/-- `SCHEDULE_AHEAD_TIME` constant in `scheduleNextBuffer`: 200 ms. -/
def scheduleAheadTime : ℚ := 1 / 5

/-- The `onended` callback currently installed on a buffer-source unit:
`cleared` models `onended = null` (set when an end-of-queue unit is
superseded, and the initial state of ids never scheduled), `deleteOnly` the
handler installed on non-tail units, `endOfQueue` the completion-detecting
handler installed on the current tail unit. -/
inductive Handler where
  | cleared
  | deleteOnly
  | endOfQueue
deriving DecidableEq

/-- A pad oscillator: fixed chord frequency plus its random detune. -/
structure PadOsc where
  freq : ℚ
  detune : ℚ
deriving DecidableEq

/-- The pad's biquad low-pass filter parameters. -/
structure PadFilter where
  freq : ℚ
  q : ℚ
deriving DecidableEq

/-- The pad's gain node: creation value plus the list of pending
`linearRampToValueAtTime` ramps (target value, end time). -/
structure PadGain where
  value : ℚ
  ramps : List (ℚ × ℚ)
deriving DecidableEq

/-- The mutable state of an `AudioStreamer` instance.  `activeSources` is the
set of buffer-source units not yet known to have stopped (kept as a list of
ids), `handlers` maps each unit id to its current `onended` callback,
`endOfQueueAudioSource` is the end-of-queue marker, `checkInterval` records
whether the 100 ms recheck interval timer is armed, `gainConnected` whether
the shared gain stage is connected to the destination, and the `pad*` fields
hold the ambient pad graph (`none`/`[]` = not running). -/
structure Streamer where
  audioQueue : List (List ℚ)
  isPlaying : Bool
  isStreamComplete : Bool
  checkInterval : Bool
  scheduledTime : ℚ
  activeSources : List Nat
  endOfQueueAudioSource : Option Nat
  handlers : Nat → Handler
  nextId : Nat
  padGain : Option PadGain
  padOscillators : List PadOsc
  padFilter : Option PadFilter
  gainConnected : Bool
  keepAliveOscillator : Bool

/-- The state built by the `AudioStreamer` constructor: empty queue, nothing
scheduled, gain stage connected to the destination, keep-alive oscillator
started, pad not running. -/
def initStreamer : Streamer where
  audioQueue := []
  isPlaying := false
  isStreamComplete := false
  checkInterval := false
  scheduledTime := 0
  activeSources := []
  endOfQueueAudioSource := none
  handlers := fun _ => Handler.cleared
  nextId := 0
  padGain := none
  padOscillators := []
  padFilter := none
  gainConnected := true
  keepAliveOscillator := true

/-- Byte value the `DataView` reads at byte index `i` (0 when out of range;
an out-of-range 2-byte read in the source throws a `RangeError` that the
per-sample `try/catch` swallows, see `_processPCM16Chunk`). -/
def byteAt (chunk : List Byte) (i : Nat) : Nat :=
  (chunk.getD i 0).val

/-- `dataView.getInt16(2*i, true)`: the `i`-th little-endian signed 16-bit
sample of the chunk. -/
def int16At (chunk : List Byte) (i : Nat) : Int :=
  let u : Nat := byteAt chunk (2 * i) + 256 * byteAt chunk (2 * i + 1)
  if u < 32768 then (u : Int) else (u : Int) - 65536

/-- `_processPCM16Chunk` (source lines 181–194): allocates a float array of
length `⌊chunk.length / 2⌋` (the JS `Float32Array(chunk.length / 2)`
truncates a fractional length) and fills slot `i` with
`getInt16(2*i, true) / 32768`.  For an odd-length chunk the final 2-byte read
is out of range; the thrown `RangeError` is caught and the sample skipped, so
exactly `⌊length / 2⌋` samples are produced in every case. -/
def _processPCM16Chunk (chunk : List Byte) : List ℚ :=
  (List.range (chunk.length / 2)).map fun i => (int16At chunk i : ℚ) / 32768

/-- `_processPCM16Chunk` with a per-sample failure oracle: `fail i = true`
means the `dataView.getInt16` call for sample `i` threw; the `catch` branch
logs and skips the sample, leaving the pre-allocated slot at its initial 0. -/
def _processPCM16ChunkF (fail : Nat → Bool) (chunk : List Byte) : List ℚ :=
  (List.range (chunk.length / 2)).map fun i =>
    if fail i then 0 else (int16At chunk i : ℚ) / 32768

/-- The specification's description of decoding, written independently of the
source loop: pair consecutive bytes, interpret each pair as a little-endian
signed 16-bit integer, map it to `int16 / 32768`. -/
def pcm16leSamples : List Byte → List ℚ
  | lo :: hi :: rest =>
    (int16At [lo, hi] 0 : ℚ) / 32768 :: pcm16leSamples rest
  | _ => []

/-- The block-splitting loop of `addPCM16` (source lines 199–206), written
with a structural-recursion fuel so that it evaluates inside the kernel.
Each iteration with at least `bufferSize` samples left removes `bufferSize`
of them, so any fuel of at least `samples.length` iterations is enough. -/
def splitBlocksAux : Nat → List ℚ → List (List ℚ)
  | 0, samples => if samples.isEmpty then [] else [samples]
  | fuel + 1, samples =>
    if bufferSize ≤ samples.length then
      samples.take bufferSize :: splitBlocksAux fuel (samples.drop bufferSize)
    else if samples.isEmpty then [] else [samples]

/-- The block-splitting loop of `addPCM16` (source lines 199–206): take full
`bufferSize`-sample blocks while possible, then one final shorter block from
a non-empty remainder. -/
def splitBlocks (samples : List ℚ) : List (List ℚ) :=
  splitBlocksAux samples.length samples

/-- `stopPad()` is not needed by any claim and is omitted; `setPadVolume`
(source lines 88–93): append a 0.5 s linear ramp when the pad is running. -/
def setPadVolume (volume now : ℚ) (s : Streamer) : Streamer :=
  match s.padGain with
  | none => s
  | some g =>
    { s with padGain := some { g with ramps := g.ramps ++ [(volume, now + 1 / 2)] } }

/-- The fixed pad chord frequencies (D3, A3, D4). -/
def padFreqs : List ℚ := [14683 / 100, 220, 29366 / 100]

/-- `startPad(volume)` (source lines 95–130): no-op when the pad gain node
already exists; otherwise creates the gain node (value 0, one 2 s fade-in
ramp to `volume`), the 400 Hz / Q 1 low-pass filter, and three detuned
triangle oscillators pushed onto `padOscillators`.  The random detunes are
passed in explicitly as `dets`. -/
def startPad (volume now : ℚ) (dets : List ℚ) (s : Streamer) : Streamer :=
  if s.padGain.isSome then s
  else
    { s with
        padGain := some { value := 0, ramps := [(volume, now + 2)] }
        padFilter := some { freq := 400, q := 1 }
        padOscillators :=
          s.padOscillators ++ List.zipWith (fun f d => PadOsc.mk f d) padFreqs dets }

/-- `stop()` (source lines 311–338).  Returns the new state together with the
list of units on which `source.stop()` was called (every member of
`activeSources`; in the source an error from an already-finished unit is
caught and ignored, so the per-unit call is total).  Note the handlers and
the end-of-queue marker are left as they are, exactly as in the source. -/
def stop (now : ℚ) (s : Streamer) : Streamer × List Nat :=
  ({ s with
      isPlaying := false
      isStreamComplete := true
      audioQueue := []
      activeSources := []
      scheduledTime := now
      checkInterval := false },
   s.activeSources)

/-- `complete()` (source lines 349–352): set the stream-complete flag and
invoke `onComplete` unconditionally.  The returned boolean reports that the
callback fired. -/
def complete (s : Streamer) : Streamer × Bool :=
  ({ s with isStreamComplete := true }, true)

/-- `resume()` (source lines 340–347), without the audio-context resume
call: clear the stream-complete flag and re-prime the cursor. -/
def resume (now : ℚ) (s : Streamer) : Streamer :=
  { s with isStreamComplete := false, scheduledTime := now + initialBufferTime }

/-- One scheduling event produced by a pass of `scheduleNextBuffer`: the unit
id, the start time handed to `source.start`, the buffer duration
(`length / sampleRate`), and the sample data of the block. -/
structure Sched where
  sid : Nat
  start : ℚ
  dur : ℚ
  data : List ℚ
deriving DecidableEq

/-- The fields of the streamer the scheduling while-loop reads and writes. -/
structure SchedCtx where
  cursor : ℚ
  nextId : Nat
  activeSources : List Nat
  eoq : Option Nat
  handlers : Nat → Handler

/-- Pointwise update of the handler map (installing `onended` on one unit). -/
def updateHandler (h : Nat → Handler) (i : Nat) (v : Handler) : Nat → Handler :=
  fun j => if j = i then v else h j

/-- `this.endOfQueueAudioSource.onended = null` on the previous marker,
when there is one. -/
def clearEoqHandler (h : Nat → Handler) : Option Nat → Nat → Handler
  | none => h
  | some p => updateHandler h p Handler.cleared

/-- The while-loop of `scheduleNextBuffer` (source lines 227–283), recursing
on the queue: while the queue is non-empty and the cursor is inside the
lookahead window, shift the head block, create a unit for it (fresh id),
add it to the active set, install its `onended` handler — the end-of-queue
handler when this shift emptied the queue (disarming the previous marker
first), the delete-only handler otherwise — start it at
`max(cursor, now)` and advance the cursor by the block's duration.
Returns the final loop state, the remaining queue, and the scheduling events
in order.  The scheduling event one loop iteration emits for the shifted block:
fresh unit id, start time `max(cursor, now)` (`Math.max(this.scheduledTime,
this.context.currentTime)`), duration `length / sampleRate`. -/
def schedEvent (now : ℚ) (audioData : List ℚ) (ctx : SchedCtx) : Sched :=
  { sid := ctx.nextId
    start := max ctx.cursor now
    dur := (audioData.length : ℚ) / sampleRate
    data := audioData }

/-- The loop state after one iteration that scheduled `audioData` with
`rest` still queued behind it: the cursor advances to start time plus
duration, the new unit joins the active set, and — when this shift emptied
the queue — the unit becomes the end-of-queue marker, the previous marker's
handler is nulled out first, and the unit receives the end-of-queue
`onended` handler; otherwise it receives the delete-only handler. -/
def schedStep (now : ℚ) (audioData : List ℚ) (rest : List (List ℚ)) (ctx : SchedCtx) :
    SchedCtx :=
  { cursor := (schedEvent now audioData ctx).start + (schedEvent now audioData ctx).dur
    nextId := ctx.nextId + 1
    activeSources := ctx.nextId :: ctx.activeSources
    eoq := if rest.isEmpty then some ctx.nextId else ctx.eoq
    handlers :=
      if rest.isEmpty then
        updateHandler (clearEoqHandler ctx.handlers ctx.eoq) ctx.nextId Handler.endOfQueue
      else updateHandler ctx.handlers ctx.nextId Handler.deleteOnly }

def drain (now : ℚ) : List (List ℚ) → SchedCtx → SchedCtx × List (List ℚ) × List Sched
  | [], ctx => (ctx, [], [])
  | audioData :: rest, ctx =>
    if ctx.cursor < now + scheduleAheadTime then
      let r := drain now rest (schedStep now audioData rest ctx)
      (r.1, r.2.1, schedEvent now audioData ctx :: r.2.2)
    else (ctx, audioData :: rest, [])

/-- The loop state of `scheduleNextBuffer` read out of the streamer. -/
def toCtx (s : Streamer) : SchedCtx :=
  { cursor := s.scheduledTime, nextId := s.nextId,
    activeSources := s.activeSources, eoq := s.endOfQueueAudioSource,
    handlers := s.handlers }

/-- Write-back of the loop result into the streamer. -/
def applyDrain (s : Streamer) (r : SchedCtx × List (List ℚ) × List Sched) : Streamer :=
  { s with
      audioQueue := r.2.1
      scheduledTime := r.1.cursor
      nextId := r.1.nextId
      activeSources := r.1.activeSources
      endOfQueueAudioSource := r.1.eoq
      handlers := r.1.handlers }

/-- The re-arming logic after the draining loop (source lines 285–308): if
the queue is empty and the stream is complete, stop the loop and clear the
recheck interval; if the queue is empty and the stream is not complete, arm
the 100 ms recheck interval; otherwise a one-shot timeout re-invokes the
pass (modelled by the `tick` trace operation), so the state is unchanged. -/
def rearm (s : Streamer) : Streamer :=
  if s.audioQueue.isEmpty then
    if s.isStreamComplete then { s with isPlaying := false, checkInterval := false }
    else { s with checkInterval := true }
  else s

/-- `scheduleNextBuffer` (source lines 224–309): run the draining loop over
the queue, write the loop state back, then re-arm. -/
def scheduleNextBuffer (now : ℚ) (s : Streamer) : Streamer × List Sched :=
  let r := drain now s.audioQueue (toCtx s)
  (rearm (applyDrain s r), r.2.2)

/-- The `onended` notification for unit `sid` (installed at source lines
243–257), run against the state current when the unit finishes: the
delete-only handler removes the unit from the active set; the end-of-queue
handler additionally fires `onComplete` (returned boolean) and clears the
marker when the queue is empty and the unit is still the marker; a cleared
handler (`onended = null`) does nothing at all. -/
def onended (sid : Nat) (s : Streamer) : Streamer × Bool :=
  match s.handlers sid with
  | Handler.cleared => (s, false)
  | Handler.deleteOnly => ({ s with activeSources := s.activeSources.erase sid }, false)
  | Handler.endOfQueue =>
    let s1 := { s with activeSources := s.activeSources.erase sid }
    if s1.audioQueue.isEmpty ∧ s1.endOfQueueAudioSource = some sid then
      ({ s1 with endOfQueueAudioSource := none }, true)
    else (s1, false)

/-- The body of `addPCM16` after decoding (source lines 197–211), shared by
the plain and the failure-oracle decoders: clear the stream-complete flag,
split the decoded run into blocks, append them to the queue tail, and if the
scheduler loop is not running, start it (prime the cursor to
`now + initialBufferTime` and run the initial pass). -/
def enqueueSamples (samples : List ℚ) (now : ℚ) (s : Streamer) : Streamer × List Sched :=
  let s1 := { s with
      isStreamComplete := false
      audioQueue := s.audioQueue ++ splitBlocks samples }
  if s1.isPlaying then (s1, [])
  else scheduleNextBuffer now
    { s1 with isPlaying := true, scheduledTime := now + initialBufferTime }

/-- `addPCM16` (source lines 196–212). -/
def addPCM16 (chunk : List Byte) (now : ℚ) (s : Streamer) : Streamer × List Sched :=
  enqueueSamples (_processPCM16Chunk chunk) now s

/-- `addPCM16` with the per-sample decode-failure oracle. -/
def addPCM16F (fail : Nat → Bool) (chunk : List Byte) (now : ℚ) (s : Streamer) :
    Streamer × List Sched :=
  enqueueSamples (_processPCM16ChunkF fail chunk) now s

/-- The operations an execution interleaves: `ingest` and the lifecycle calls
arrive from the host, `ended` is the output device's completion notification
for one unit, `tick` is a timer callback (recheck interval or one-shot
timeout) re-invoking the scheduling pass. -/
inductive Op where
  | ingest (chunk : List Byte) (now : ℚ)
  | doStop (now : ℚ)
  | doComplete
  | ended (sid : Nat)
  | tick (now : ℚ)

/-- One step of the execution: the next state, the scheduling events of the
step, and the number of times `onComplete` fired during it. -/
def step (op : Op) (s : Streamer) : Streamer × List Sched × Nat :=
  match op with
  | Op.ingest c t => let r := addPCM16 c t s; (r.1, r.2, 0)
  | Op.doStop t => ((stop t s).1, [], 0)
  | Op.doComplete => ((complete s).1, [], 1)
  | Op.ended i => let r := onended i s; (r.1, [], if r.2 then 1 else 0)
  | Op.tick t => let r := scheduleNextBuffer t s; (r.1, r.2, 0)

/-- Run a list of operations, concatenating scheduling events and summing
`onComplete` firings. -/
def runOps (ops : List Op) (s : Streamer) : Streamer × List Sched × Nat :=
  match ops with
  | [] => (s, [], 0)
  | op :: rest =>
    let r := step op s
    let r2 := runOps rest r.1
    (r2.1, r.2.1 ++ r2.2.1, r.2.2 + r2.2.2)
/-- The blocks one operation appends to the queue tail (non-empty only for
`ingest`). -/
def opBlocks : Op → List (List ℚ)
  | Op.ingest c _ => splitBlocks (_processPCM16Chunk c)
  | _ => []

/-- Operations that do not reset the scheduled-time cursor: `stop()` resets
it to `now`, and an `ingest` that finds the scheduler loop stopped re-primes
it to `now + initialBufferTime`; all other operations only let the
scheduling pass advance it. -/
def opOK : Op → Streamer → Prop
  | Op.ingest _ _, s => s.isPlaying = true
  | Op.doStop _, _ => False
  | _, _ => True

/-- A trace of operations none of which resets the cursor. -/
def OkTrace : Streamer → List Op → Prop
  | _, [] => True
  | s, op :: rest => opOK op s ∧ OkTrace (step op s).1 rest

/-- A sequence of `ingest` calls as trace operations. -/
def ingestOps (calls : List (List Byte × ℚ)) : List Op :=
  calls.map fun p => Op.ingest p.1 p.2

/-- The invariant one scheduling pass establishes for its events, relating
the cursor before (`c`) and after (`c'`): each block starts at
`max cursor now`, its duration is `length / sampleRate`, and the cursor
advances to the start time plus that duration. -/
inductive SchedChain (now : ℚ) : ℚ → List Sched → ℚ → Prop
  | nil (c : ℚ) : SchedChain now c [] c
  | cons (c c' : ℚ) (sch : Sched) (rest : List Sched) :
      sch.start = max c now →
      sch.dur = (sch.data.length : ℚ) / sampleRate →
      SchedChain now (sch.start + sch.dur) rest c' →
      SchedChain now c (sch :: rest) c'

/-- A state in which the pad is running, for the C9 witness. -/
def padRunning : Streamer :=
  { initStreamer with
      padGain := some { value := 0, ramps := [(3 / 10, 2)] }
      padFilter := some { freq := 400, q := 1 }
      padOscillators := List.zipWith (fun f d => PadOsc.mk f d) padFreqs [1, -2, 3] }

/-- A 2-byte chunk decoding to the single sample `4096 / 32768 = 1/8`. -/
def cxChunk : List Byte := [0, 16]

/-- A reachable state with a non-empty queue: the first `ingest` starts the
scheduler and its pass drains the single block; the second `ingest` arrives
while the loop is armed, so its block stays queued until the next timer
tick. -/
def c1CexState : Streamer :=
  (runOps [Op.ingest cxChunk 0, Op.ingest cxChunk 0] initStreamer).1

/-- Trace for the C2 counterexample: unit 0 is scheduled as end-of-queue
marker by the first ingest's pass; the second ingest queues another block;
the timer tick schedules unit 1, which supersedes unit 0 as the marker and
nulls out unit 0's entire `onended` handler; then unit 0 finishes playing
naturally (`ended 0`). -/
def c2CexOps : List Op :=
  [Op.ingest cxChunk 0, Op.ingest cxChunk 0, Op.tick 0, Op.ended 0]

/-- A playing state with an end-of-queue unit outstanding and one block
queued, used as concrete input by several witnesses. -/
def wPlaying : Streamer :=
  { initStreamer with
      isPlaying := true
      checkInterval := true
      scheduledTime := 1 / 10
      activeSources := [5]
      endOfQueueAudioSource := some 5
      handlers := fun i => if i = 5 then Handler.endOfQueue else Handler.cleared
      nextId := 6
      audioQueue := [[1 / 8]] }

/-- A drained, playing state whose end-of-queue unit 5 is still sounding,
used as concrete input by several witnesses. -/
def wDrained : Streamer :=
  { initStreamer with
      isPlaying := true
      checkInterval := true
      scheduledTime := 1 / 10
      activeSources := [5]
      endOfQueueAudioSource := some 5
      handlers := fun i => if i = 5 then Handler.endOfQueue else Handler.cleared
      nextId := 6 }

/-- A two-sample run for the C4 witness. -/
def wSamples : List ℚ := [1 / 8, 1 / 4]

/-- A failure oracle making exactly the second sample's decode throw. -/
def wFail : Nat → Bool := fun i => decide (i = 1)

/-- A six-byte (three-sample) chunk for the C8 witness. -/
def wChunk3 : List Byte := [0, 16, 0, 16, 0, 16]

theorem byteAt_cons2 (a b : Byte) (rest : List Byte) (i : Nat) :
    byteAt (a :: b :: rest) (i + 2) = byteAt rest i := rfl

theorem int16At_cons2 (a b : Byte) (rest : List Byte) (i : Nat) :
    int16At (a :: b :: rest) (i + 1) = int16At rest i := by
  have h1 : 2 * (i + 1) = 2 * i + 2 := by ring
  have h2 : 2 * (i + 1) + 1 = 2 * i + 1 + 2 := by ring
  simp only [int16At, h1, h2, byteAt_cons2]

theorem int16At_zero (lo hi : Byte) (rest : List Byte) :
    int16At (lo :: hi :: rest) 0 = int16At [lo, hi] 0 := rfl

theorem processPCM16Chunk_eq_pairs :
    ∀ chunk : List Byte, _processPCM16Chunk chunk = pcm16leSamples chunk
  | [] => rfl
  | [b] => by simp [_processPCM16Chunk, pcm16leSamples]
  | lo :: hi :: rest => by
    have ih := processPCM16Chunk_eq_pairs rest
    have hlen : (lo :: hi :: rest).length / 2 = rest.length / 2 + 1 := by
      simp only [List.length_cons]
      omega
    simp only [_processPCM16Chunk] at ih ⊢
    rw [hlen, List.range_succ_eq_map, List.map_cons, List.map_map, pcm16leSamples]
    refine congrArg₂ List.cons rfl ?_
    rw [← ih]
    refine List.map_congr_left fun i _ => ?_
    simp [Function.comp, int16At_cons2]

theorem pcm16leSamples_append :
    ∀ (a : List Byte), a.length % 2 = 0 → ∀ b : List Byte,
      pcm16leSamples (a ++ b) = pcm16leSamples a ++ pcm16leSamples b
  | [], _, b => rfl
  | [x], h, b => by simp at h
  | lo :: hi :: rest, h, b => by
    have hr : rest.length % 2 = 0 := by
      simp only [List.length_cons] at h
      omega
    simp only [List.cons_append, pcm16leSamples, List.append_eq]
    rw [pcm16leSamples_append rest hr b]

theorem splitBlocksAux_nil : ∀ fuel : Nat, splitBlocksAux fuel [] = []
  | 0 => rfl
  | _ + 1 => by simp [splitBlocksAux, bufferSize]

theorem splitBlocksAux_ne_nil :
    ∀ (fuel : Nat) (xs : List ℚ), xs ≠ [] → splitBlocksAux fuel xs ≠ []
  | 0, xs, h => by
    simp only [splitBlocksAux]
    rw [if_neg (by simpa using h)]
    simp
  | fuel + 1, xs, h => by
    simp only [splitBlocksAux]
    by_cases hb : bufferSize ≤ xs.length
    · simp [if_pos hb]
    · rw [if_neg hb, if_neg (by simpa using h)]
      simp

theorem splitBlocksAux_flatten :
    ∀ (fuel : Nat) (xs : List ℚ), xs.length ≤ fuel →
      (splitBlocksAux fuel xs).flatten = xs
  | 0, xs, h => by
    have hx : xs = [] := List.eq_nil_of_length_eq_zero (Nat.le_zero.mp h)
    subst hx; rfl
  | fuel + 1, xs, h => by
    by_cases hb : bufferSize ≤ xs.length
    · have hle : (xs.drop bufferSize).length ≤ fuel := by
        simp only [List.length_drop]
        have : 0 < bufferSize := by decide
        omega
      simp only [splitBlocksAux, if_pos hb, List.flatten_cons,
        splitBlocksAux_flatten fuel _ hle, List.take_append_drop]
    · simp only [splitBlocksAux, if_neg hb]
      by_cases he : xs.isEmpty
      · rw [if_pos he]
        simp_all [List.isEmpty_iff]
      · rw [if_neg he]
        simp

theorem splitBlocks_flatten (xs : List ℚ) : (splitBlocks xs).flatten = xs :=
  splitBlocksAux_flatten xs.length xs le_rfl

theorem splitBlocksAux_length :
    ∀ (fuel : Nat) (xs : List ℚ), xs.length ≤ fuel →
      (splitBlocksAux fuel xs).length = (xs.length + (bufferSize - 1)) / bufferSize
  | 0, xs, h => by
    have hx : xs = [] := List.eq_nil_of_length_eq_zero (Nat.le_zero.mp h)
    subst hx
    simp [splitBlocksAux, bufferSize]
  | fuel + 1, xs, h => by
    by_cases hb : bufferSize ≤ xs.length
    · have hle : (xs.drop bufferSize).length ≤ fuel := by
        simp only [List.length_drop]
        have : 0 < bufferSize := by decide
        omega
      simp only [splitBlocksAux, if_pos hb, List.length_cons,
        splitBlocksAux_length fuel _ hle, List.length_drop]
      simp only [bufferSize] at hb ⊢
      omega
    · simp only [splitBlocksAux, if_neg hb]
      by_cases he : xs.isEmpty
      · rw [if_pos he]
        have hx : xs = [] := by simpa [List.isEmpty_iff] using he
        subst hx
        simp [bufferSize]
      · rw [if_neg he]
        have hx : xs ≠ [] := by simpa [List.isEmpty_iff] using he
        have hpos : 0 < xs.length := List.length_pos.mpr hx
        simp only [List.length_singleton, bufferSize] at hb ⊢
        omega

theorem splitBlocksAux_dropLast :
    ∀ (fuel : Nat) (xs : List ℚ), xs.length ≤ fuel →
      ∀ b ∈ (splitBlocksAux fuel xs).dropLast, b.length = bufferSize
  | 0, xs, h => by
    have hx : xs = [] := List.eq_nil_of_length_eq_zero (Nat.le_zero.mp h)
    subst hx
    simp [splitBlocksAux]
  | fuel + 1, xs, h => by
    by_cases hb : bufferSize ≤ xs.length
    · have hle : (xs.drop bufferSize).length ≤ fuel := by
        simp only [List.length_drop]
        have : 0 < bufferSize := by decide
        omega
      simp only [splitBlocksAux, if_pos hb]
      by_cases hd : xs.drop bufferSize = []
      · rw [hd, splitBlocksAux_nil]
        simp
      · have hne := splitBlocksAux_ne_nil fuel _ hd
        rw [List.dropLast_cons_of_ne_nil hne]
        intro b hbmem
        rcases List.mem_cons.mp hbmem with hb1 | hb2
        · subst hb1
          rw [List.length_take]
          omega
        · exact splitBlocksAux_dropLast fuel _ hle b hb2
    · simp only [splitBlocksAux, if_neg hb]
      by_cases he : xs.isEmpty
      · rw [if_pos he]
        simp
      · rw [if_neg he]
        simp

theorem splitBlocksAux_getLast :
    ∀ (fuel : Nat) (xs : List ℚ), xs.length ≤ fuel → xs ≠ [] →
      (splitBlocksAux fuel xs).getLast?.map List.length
        = some (if xs.length % bufferSize = 0 then bufferSize else xs.length % bufferSize)
  | 0, xs, h, hne => absurd (List.eq_nil_of_length_eq_zero (Nat.le_zero.mp h)) hne
  | fuel + 1, xs, h, hne => by
    by_cases hb : bufferSize ≤ xs.length
    · have hle : (xs.drop bufferSize).length ≤ fuel := by
        simp only [List.length_drop]
        have : 0 < bufferSize := by decide
        omega
      simp only [splitBlocksAux, if_pos hb]
      by_cases hd : xs.drop bufferSize = []
      · have hlen : xs.length = bufferSize := by
          have := congrArg List.length hd
          simp only [List.length_drop, List.length_nil] at this
          omega
        rw [hd, splitBlocksAux_nil]
        have hmod : xs.length % bufferSize = 0 := by
          rw [hlen]
          exact Nat.mod_self bufferSize
        simp [List.length_take, hlen, hmod]
      · have hne2 := splitBlocksAux_ne_nil fuel _ hd
        have ih := splitBlocksAux_getLast fuel _ hle hd
        rcases hx : splitBlocksAux fuel (xs.drop bufferSize) with _ | ⟨y, ys⟩
        · exact absurd hx hne2
        · rw [hx] at ih
          rw [List.getLast?_cons_cons, ih]
          simp only [List.length_drop]
          have hmod : (xs.length - bufferSize) % bufferSize = xs.length % bufferSize := by
            simp only [bufferSize] at hb ⊢
            omega
          rw [hmod]
    · simp only [splitBlocksAux, if_neg hb]
      rw [if_neg (by simpa using hne)]
      have h0 : 0 < xs.length := List.length_pos.mpr hne
      have hmod : xs.length % bufferSize = xs.length := Nat.mod_eq_of_lt (by omega)
      have hne0 : ¬xs.length % bufferSize = 0 := by omega
      simp [hmod, hne0, hne]

theorem splitBlocksAux_mem_ne_nil :
    ∀ (fuel : Nat) (xs : List ℚ), ∀ b ∈ splitBlocksAux fuel xs, b ≠ []
  | 0, xs => by
    by_cases he : xs.isEmpty
    · simp [splitBlocksAux, he]
    · simp only [splitBlocksAux, if_neg he]
      intro b hbmem
      rcases List.mem_cons.mp hbmem with hb1 | hb2
      · subst hb1
        simpa [List.isEmpty_iff] using he
      · simp at hb2
  | fuel + 1, xs => by
    by_cases hb : bufferSize ≤ xs.length
    · simp only [splitBlocksAux, if_pos hb]
      intro b hbmem
      rcases List.mem_cons.mp hbmem with hb1 | hb2
      · subst hb1
        have : (xs.take bufferSize).length = bufferSize := by
          rw [List.length_take]
          omega
        intro hcon
        rw [hcon] at this
        simp [bufferSize] at this
      · exact splitBlocksAux_mem_ne_nil fuel _ b hb2
    · simp only [splitBlocksAux, if_neg hb]
      by_cases he : xs.isEmpty
      · simp [if_pos he]
      · rw [if_neg he]
        intro b hbmem
        rcases List.mem_cons.mp hbmem with hb1 | hb2
        · subst hb1
          simpa [List.isEmpty_iff] using he
        · simp at hb2

theorem drain_data_append :
    ∀ (now : ℚ) (q : List (List ℚ)) (ctx : SchedCtx),
      ((drain now q ctx).2.2.map Sched.data) ++ (drain now q ctx).2.1 = q
  | _, [], _ => rfl
  | now, d :: rest, ctx => by
    by_cases h : ctx.cursor < now + scheduleAheadTime
    · simp only [drain, if_pos h, List.map_cons, List.cons_append, schedEvent]
      rw [drain_data_append]
    · simp [drain, if_neg h]

theorem drain_active :
    ∀ (now : ℚ) (q : List (List ℚ)) (ctx : SchedCtx),
      (drain now q ctx).1.activeSources
        = ((drain now q ctx).2.2.map Sched.sid).reverse ++ ctx.activeSources
  | _, [], _ => rfl
  | now, d :: rest, ctx => by
    by_cases h : ctx.cursor < now + scheduleAheadTime
    · simp only [drain, if_pos h, List.map_cons, List.reverse_cons]
      rw [drain_active]
      simp [schedStep, schedEvent]
    · simp [drain, if_neg h]

theorem drain_chain :
    ∀ (now : ℚ) (q : List (List ℚ)) (ctx : SchedCtx),
      SchedChain now ctx.cursor (drain now q ctx).2.2 (drain now q ctx).1.cursor
  | now, [], ctx => SchedChain.nil ctx.cursor
  | now, d :: rest, ctx => by
    by_cases h : ctx.cursor < now + scheduleAheadTime
    · simp only [drain, if_pos h]
      exact SchedChain.cons _ _ _ _ rfl rfl (drain_chain now rest (schedStep now d rest ctx))
    · simp only [drain, if_neg h]
      exact SchedChain.nil ctx.cursor

theorem rearm_audioQueue (s : Streamer) : (rearm s).audioQueue = s.audioQueue := by
  unfold rearm
  split
  · split <;> rfl
  · rfl

theorem rearm_scheduledTime (s : Streamer) : (rearm s).scheduledTime = s.scheduledTime := by
  unfold rearm
  split
  · split <;> rfl
  · rfl

theorem rearm_activeSources (s : Streamer) : (rearm s).activeSources = s.activeSources := by
  unfold rearm
  split
  · split <;> rfl
  · rfl

theorem rearm_isStreamComplete (s : Streamer) :
    (rearm s).isStreamComplete = s.isStreamComplete := by
  unfold rearm
  split
  · split <;> rfl
  · rfl

theorem rearm_isPlaying (s : Streamer) (h : s.isStreamComplete = false) :
    (rearm s).isPlaying = s.isPlaying := by
  unfold rearm
  split
  · simp [h]
  · rfl

theorem scheduleNextBuffer_queue (now : ℚ) (s : Streamer) :
    (scheduleNextBuffer now s).2.map Sched.data ++ (scheduleNextBuffer now s).1.audioQueue
      = s.audioQueue := by
  simp only [scheduleNextBuffer, rearm_audioQueue, applyDrain]
  exact drain_data_append now s.audioQueue (toCtx s)

theorem scheduleNextBuffer_cursor (now : ℚ) (s : Streamer) :
    (scheduleNextBuffer now s).1.scheduledTime
      = (drain now s.audioQueue (toCtx s)).1.cursor := by
  simp only [scheduleNextBuffer, rearm_scheduledTime, applyDrain]

theorem scheduleNextBuffer_active (now : ℚ) (s : Streamer) :
    (scheduleNextBuffer now s).1.activeSources
      = ((scheduleNextBuffer now s).2.map Sched.sid).reverse ++ s.activeSources := by
  simp only [scheduleNextBuffer, rearm_activeSources, applyDrain]
  exact drain_active now s.audioQueue (toCtx s)

theorem scheduleNextBuffer_isStreamComplete (now : ℚ) (s : Streamer) :
    (scheduleNextBuffer now s).1.isStreamComplete = s.isStreamComplete := by
  simp only [scheduleNextBuffer, rearm_isStreamComplete, applyDrain]

theorem scheduleNextBuffer_isPlaying (now : ℚ) (s : Streamer)
    (h : s.isStreamComplete = false) :
    (scheduleNextBuffer now s).1.isPlaying = s.isPlaying := by
  simp only [scheduleNextBuffer]
  rw [rearm_isPlaying _ (by simpa [applyDrain] using h)]
  rfl

theorem scheduleNextBuffer_chain (now : ℚ) (s : Streamer) :
    SchedChain now s.scheduledTime (scheduleNextBuffer now s).2
      (scheduleNextBuffer now s).1.scheduledTime := by
  rw [scheduleNextBuffer_cursor]
  exact drain_chain now s.audioQueue (toCtx s)

theorem onended_cleared (i : Nat) (s : Streamer) (h : s.handlers i = Handler.cleared) :
    (onended i s).1 = s := by
  simp only [onended, h]

theorem onended_not_cleared (i : Nat) (s : Streamer)
    (h : ¬s.handlers i = Handler.cleared) :
    (onended i s).1.activeSources = s.activeSources.erase i := by
  cases hh : s.handlers i
  · exact absurd hh h
  · simp only [onended, hh]
  · simp only [onended, hh]
    split <;> rfl

theorem onended_audioQueue (i : Nat) (s : Streamer) :
    (onended i s).1.audioQueue = s.audioQueue := by
  cases hh : s.handlers i <;> simp only [onended, hh]
  split <;> rfl

theorem onended_scheduledTime (i : Nat) (s : Streamer) :
    (onended i s).1.scheduledTime = s.scheduledTime := by
  cases hh : s.handlers i <;> simp only [onended, hh]
  split <;> rfl

theorem onended_fired (i : Nat) (s : Streamer) (h : (onended i s).2 = true) :
    s.audioQueue.isEmpty = true ∧ s.endOfQueueAudioSource = some i
      ∧ s.handlers i = Handler.endOfQueue := by
  cases hh : s.handlers i <;> simp only [onended, hh] at h
  · simp at h
  · simp at h
  · split at h
    next hc => exact ⟨hc.1, hc.2, rfl⟩
    next hc => simp at h

theorem enqueueSamples_queue (xs : List ℚ) (now : ℚ) (s : Streamer) :
    (enqueueSamples xs now s).2.map Sched.data ++ (enqueueSamples xs now s).1.audioQueue
      = s.audioQueue ++ splitBlocks xs := by
  simp only [enqueueSamples]
  split
  · simp
  · simpa using scheduleNextBuffer_queue now _

theorem enqueueSamples_isStreamComplete (xs : List ℚ) (now : ℚ) (s : Streamer) :
    (enqueueSamples xs now s).1.isStreamComplete = false := by
  simp only [enqueueSamples]
  split
  · rfl
  · rw [scheduleNextBuffer_isStreamComplete]

theorem enqueueSamples_isPlaying (xs : List ℚ) (now : ℚ) (s : Streamer) :
    (enqueueSamples xs now s).1.isPlaying = true := by
  simp only [enqueueSamples]
  split
  next h => exact h
  next h => rw [scheduleNextBuffer_isPlaying _ _ rfl]

theorem chain_head_mono {a b : ℚ} {l : List ℚ} (hab : a ≤ b)
    (h : List.Chain' (· ≤ ·) (b :: l)) : List.Chain' (· ≤ ·) (a :: l) := by
  rcases l with _ | ⟨c, l⟩
  · simp
  · rw [List.chain'_cons] at h ⊢
    exact ⟨le_trans hab h.1, h.2⟩

theorem Sched.dur_nonneg (sch : Sched)
    (hdur : sch.dur = (sch.data.length : ℚ) / sampleRate) : 0 ≤ sch.dur := by
  rw [hdur]
  apply div_nonneg (Nat.cast_nonneg _)
  norm_num [sampleRate]

theorem SchedChain.cursor_le {now c c' : ℚ} {l : List Sched}
    (h : SchedChain now c l c') : c ≤ c' := by
  induction h with
  | nil c => exact le_refl c
  | cons c c' sch rest hstart hdur hrest ih =>
    have h1 : c ≤ sch.start := hstart ▸ le_max_left _ _
    have h2 : 0 ≤ sch.dur := Sched.dur_nonneg sch hdur
    exact le_trans h1 (le_trans (le_add_of_nonneg_right h2) ih)

theorem SchedChain.chain' {now c c' : ℚ} {l : List Sched}
    (h : SchedChain now c l c') :
    List.Chain' (· ≤ ·) (c :: (l.map Sched.start ++ [c'])) := by
  induction h with
  | nil c => simp
  | cons c c' sch rest hstart hdur hrest ih =>
    simp only [List.map_cons, List.cons_append]
    refine List.chain'_cons.mpr ⟨hstart ▸ le_max_left c now, ?_⟩
    exact chain_head_mono
      (le_add_of_nonneg_right (Sched.dur_nonneg sch hdur)) ih

theorem chain_glue :
    ∀ (A : List ℚ) (c₀ c₁ : ℚ) (B : List ℚ) (c₂ : ℚ),
      List.Chain' (· ≤ ·) (c₀ :: (A ++ [c₁])) →
      List.Chain' (· ≤ ·) (c₁ :: (B ++ [c₂])) →
      List.Chain' (· ≤ ·) (c₀ :: (A ++ B ++ [c₂]))
  | [], c₀, c₁, B, c₂, h1, h2 => by
    simp only [List.nil_append] at h1 ⊢
    exact chain_head_mono (List.chain'_cons.mp h1).1 h2
  | a :: A, c₀, c₁, B, c₂, h1, h2 => by
    simp only [List.cons_append] at h1 ⊢
    refine List.chain'_cons.mpr ⟨(List.chain'_cons.mp h1).1, ?_⟩
    exact chain_glue A a c₁ B c₂ (List.chain'_cons.mp h1).2 h2

theorem step_queue (op : Op) (s : Streamer) (hop : opOK op s) :
    (step op s).2.1.map Sched.data ++ (step op s).1.audioQueue
      = s.audioQueue ++ opBlocks op := by
  cases op with
  | ingest c t =>
    simpa [step, addPCM16, opBlocks] using enqueueSamples_queue (_processPCM16Chunk c) t s
  | doStop t => exact hop.elim
  | doComplete => simp [step, opBlocks, complete]
  | ended i => simp [step, opBlocks, onended_audioQueue]
  | tick t => simpa [step, opBlocks] using scheduleNextBuffer_queue t s

theorem step_chain (op : Op) (s : Streamer) (hop : opOK op s) :
    List.Chain' (· ≤ ·) (s.scheduledTime :: ((step op s).2.1.map Sched.start
      ++ [(step op s).1.scheduledTime])) := by
  cases op with
  | ingest c t =>
    have hop' : s.isPlaying = true := hop
    simp [step, addPCM16, enqueueSamples, hop']
  | doStop t => exact hop.elim
  | doComplete => simp [step, complete]
  | ended i => simp [step, onended_scheduledTime]
  | tick t =>
    have h := (scheduleNextBuffer_chain t s).chain'
    simpa [step] using h

theorem runOps_queue :
    ∀ (ops : List Op) (s : Streamer), OkTrace s ops →
      (runOps ops s).2.1.map Sched.data ++ (runOps ops s).1.audioQueue
        = s.audioQueue ++ ops.flatMap opBlocks
  | [], s, _ => by simp [runOps]
  | op :: rest, s, h => by
    obtain ⟨h1, h2⟩ := h
    simp only [runOps, List.flatMap_cons, List.map_append, List.append_assoc]
    rw [runOps_queue rest _ h2, ← List.append_assoc, step_queue op s h1,
      List.append_assoc]

theorem runOps_chain :
    ∀ (ops : List Op) (s : Streamer), OkTrace s ops →
      List.Chain' (· ≤ ·) (s.scheduledTime :: ((runOps ops s).2.1.map Sched.start
        ++ [(runOps ops s).1.scheduledTime]))
  | [], s, _ => by simp [runOps]
  | op :: rest, s, h => by
    obtain ⟨h1, h2⟩ := h
    have g := chain_glue ((step op s).2.1.map Sched.start) s.scheduledTime
      (step op s).1.scheduledTime ((runOps rest (step op s).1).2.1.map Sched.start)
      (runOps rest (step op s).1).1.scheduledTime (step_chain op s h1)
      (runOps_chain rest _ h2)
    simpa [runOps, List.map_append, List.append_assoc] using g

theorem enqueueSamples_playing (xs : List ℚ) (t : ℚ) (s : Streamer)
    (hp : s.isPlaying = true) :
    enqueueSamples xs t s
      = ({ s with
            isStreamComplete := false
            audioQueue := s.audioQueue ++ splitBlocks xs }, []) := by
  simp only [enqueueSamples]
  rw [if_pos]
  exact hp

theorem addPCM16_playing (c : List Byte) (t : ℚ) (s : Streamer)
    (hp : s.isPlaying = true) :
    (addPCM16 c t s).1.audioQueue
        = s.audioQueue ++ splitBlocks (_processPCM16Chunk c) ∧
      (addPCM16 c t s).1.isPlaying = true := by
  unfold addPCM16
  rw [enqueueSamples_playing _ _ _ hp]
  exact ⟨rfl, hp⟩

theorem step_ingest_queue (c : List Byte) (t : ℚ) (s : Streamer) :
    (step (Op.ingest c t) s).2.1.map Sched.data
        ++ (step (Op.ingest c t) s).1.audioQueue
      = s.audioQueue ++ splitBlocks (_processPCM16Chunk c) :=
  enqueueSamples_queue _ t s

theorem ingestRun_queue :
    ∀ (calls : List (List Byte × ℚ)) (s : Streamer),
      (runOps (ingestOps calls) s).2.1.map Sched.data
          ++ (runOps (ingestOps calls) s).1.audioQueue
        = s.audioQueue ++ calls.flatMap fun p => splitBlocks (_processPCM16Chunk p.1)
  | [], s => by simp [runOps, ingestOps]
  | p :: rest, s => by
    simp only [ingestOps, List.map_cons, runOps, List.flatMap_cons, List.map_append,
      List.append_assoc]
    rw [show List.map (fun p : List Byte × ℚ => Op.ingest p.1 p.2) rest
        = ingestOps rest from rfl]
    rw [ingestRun_queue rest _, ← List.append_assoc, step_ingest_queue p.1 p.2 s,
      List.append_assoc]

theorem blocks_flatten_spec :
    ∀ calls : List (List Byte × ℚ), (∀ p ∈ calls, p.1.length % 2 = 0) →
      (calls.flatMap fun p => splitBlocks (_processPCM16Chunk p.1)).flatten
        = pcm16leSamples (calls.map Prod.fst).flatten
  | [], _ => rfl
  | p :: rest, h => by
    have hp : p.1.length % 2 = 0 := h p (List.mem_cons_self p rest)
    have ih := blocks_flatten_spec rest fun q hq => h q (List.mem_cons_of_mem p hq)
    simp only [List.flatMap_cons, List.flatten_append, List.map_cons, List.flatten_cons]
    rw [splitBlocks_flatten, ih, processPCM16Chunk_eq_pairs,
      pcm16leSamples_append p.1 hp]

unseal Rat.add Rat.mul Rat.inv

/-- C1 (amended) — `onComplete` is never invoked by `ingest`, `stop()`, a
scheduling pass, or a unit's completion notification while the queue is
non-empty; a unit's completion notification invokes it only when the queue
is empty and the unit is still the current end-of-queue marker (with the
end-of-queue handler installed).  `complete()`, however, invokes
`onComplete` unconditionally, regardless of the queue or of units still
playing — this is the one exception the original claim does not admit. -/
theorem C1_complete_guard (s : Streamer) (op : Op) (h : 0 < (step op s).2.2) :
    op = Op.doComplete ∨
      ∃ i, op = Op.ended i ∧ s.audioQueue.isEmpty = true ∧
        s.endOfQueueAudioSource = some i ∧ s.handlers i = Handler.endOfQueue := by
  cases op with
  | ingest c t => simp [step] at h
  | doStop t => simp [step] at h
  | doComplete => exact Or.inl rfl
  | ended i =>
    refine Or.inr ⟨i, rfl, ?_⟩
    by_cases hb : (onended i s).2 = true
    · exact onended_fired i s hb
    · rw [Bool.not_eq_true] at hb
      simp [step, hb] at h
  | tick t => simp [step] at h

theorem C1_complete_guard_witness :
    Op.ended 5 = Op.doComplete ∨
      ∃ i, Op.ended 5 = Op.ended i ∧ wDrained.audioQueue.isEmpty = true ∧
        wDrained.endOfQueueAudioSource = some i ∧
        wDrained.handlers i = Handler.endOfQueue :=
  C1_complete_guard wDrained (Op.ended 5) (by decide)

/-- C1 counterexample — `c1CexState` is reached by two `ingest` calls and
has a non-empty queue (the second block is still queued), yet `complete()`
fires `onComplete` there: the claim that no call to `complete()` fires
`onComplete` while the queue is non-empty is false on the code, whose
`complete()` invokes the callback unconditionally. -/
theorem C1_counterexample :
    0 < (step Op.doComplete c1CexState).2.2 ∧ c1CexState.audioQueue ≠ [] := by
  decide

/-- C2 (amended) — a unit is added to the active set exactly when its block
is scheduled (the pass adds precisely the ids of its scheduling events), and
`stop()` empties the set; a unit whose `onended` handler is still installed
(delete-only or end-of-queue) is removed from the set when it finishes
naturally, but a unit whose handler was nulled out — which is what
superseding an end-of-queue marker does — is NOT removed by its natural
finish: the state is completely unchanged, so the unit stays in the set
until `stop()`. -/
theorem C2_active_set (s : Streamer) (now : ℚ) (sid : Nat) :
    (stop now s).1.activeSources = [] ∧
    (scheduleNextBuffer now s).1.activeSources
      = ((scheduleNextBuffer now s).2.map Sched.sid).reverse ++ s.activeSources ∧
    (s.handlers sid = Handler.cleared → (onended sid s).1 = s) ∧
    (s.handlers sid ≠ Handler.cleared →
      (onended sid s).1.activeSources = s.activeSources.erase sid) :=
  ⟨rfl, scheduleNextBuffer_active now s, onended_cleared sid s,
    onended_not_cleared sid s⟩

theorem C2_active_set_witness :
    (onended 5 wDrained).1.activeSources = wDrained.activeSources.erase 5 :=
  (C2_active_set wDrained 0 5).2.2.2 (by decide)

/-- C2 counterexample — in the trace `c2CexOps`, unit 0 is scheduled, then
superseded as end-of-queue marker by unit 1 (which nulls out unit 0's whole
`onended` handler), and then unit 0 finishes playing naturally (`ended 0` is
the last operation of the trace).  Afterwards its handler is the nulled-out
one and 0 is still in the active set: the claim that every unit — including
a superseded former end-of-queue marker — is removed from the set when it
finishes naturally is false on the code. -/
theorem C2_counterexample :
    (runOps c2CexOps initStreamer).1.handlers 0 = Handler.cleared ∧
    0 ∈ (runOps c2CexOps initStreamer).1.activeSources := by
  decide

/-- C3 — for any sequence of even-length byte buffers fed to `ingest`, the
blocks produced (whether already handed to the output graph by a scheduling
pass or still queued, in order) are exactly the per-call splits, and their
concatenation equals the little-endian int16-to-`ℚ` decoding
(`pcm16leSamples`, each sample `int16 / 32768`) of the concatenation of all
input bytes, order preserved. -/
theorem C3_decode_concat (s : Streamer) (calls : List (List Byte × ℚ))
    (heven : ∀ p ∈ calls, p.1.length % 2 = 0) :
    ((runOps (ingestOps calls) s).2.1.map Sched.data
        ++ (runOps (ingestOps calls) s).1.audioQueue
      = s.audioQueue ++ calls.flatMap fun p => splitBlocks (_processPCM16Chunk p.1)) ∧
    (calls.flatMap fun p => splitBlocks (_processPCM16Chunk p.1)).flatten
      = pcm16leSamples (calls.map Prod.fst).flatten :=
  ⟨ingestRun_queue calls s, blocks_flatten_spec calls heven⟩

theorem C3_decode_concat_witness :
    ((runOps (ingestOps [([0, 16], 0), ([1, 2, 3, 4], 1)]) initStreamer).2.1.map
          Sched.data
        ++ (runOps (ingestOps [([0, 16], 0), ([1, 2, 3, 4], 1)]) initStreamer).1.audioQueue
      = initStreamer.audioQueue
        ++ [([0, 16], 0), ([1, 2, 3, 4], 1)].flatMap
          fun p => splitBlocks (_processPCM16Chunk p.1)) ∧
    ([([0, 16], 0), ([1, 2, 3, 4], 1)].flatMap
        fun p => splitBlocks (_processPCM16Chunk p.1)).flatten
      = pcm16leSamples ([([0, 16], 0), ([1, 2, 3, 4], 1)].map Prod.fst).flatten :=
  C3_decode_concat initStreamer [([0, 16], 0), ([1, 2, 3, 4], 1)] (by decide)

/-- C4 — a single `ingest` decoding to `N > 0` samples splits them into
exactly `⌈N / bufferSize⌉` blocks: every block except possibly the last has
exactly `bufferSize` samples, the last has `N mod bufferSize` samples
(`bufferSize` when `N` is a multiple), no block is empty; and two
consecutive `ingest` calls append their splits separately to the queue tail
— a trailing partial block of the first call is never merged with samples
of the second. -/
theorem C4_block_partition (samples : List ℚ) (h0 : 0 < samples.length)
    (c1 c2 : List Byte) (t1 t2 : ℚ) (s : Streamer) (hp : s.isPlaying = true) :
    (splitBlocks samples).length = (samples.length + (bufferSize - 1)) / bufferSize ∧
    (∀ b ∈ (splitBlocks samples).dropLast, b.length = bufferSize) ∧
    (splitBlocks samples).getLast?.map List.length
      = some (if samples.length % bufferSize = 0 then bufferSize
          else samples.length % bufferSize) ∧
    (∀ b ∈ splitBlocks samples, b ≠ []) ∧
    (addPCM16 c2 t2 (addPCM16 c1 t1 s).1).1.audioQueue
      = s.audioQueue ++ splitBlocks (_processPCM16Chunk c1)
        ++ splitBlocks (_processPCM16Chunk c2) := by
  have h1 := addPCM16_playing c1 t1 s hp
  have h2 := addPCM16_playing c2 t2 _ h1.2
  refine ⟨splitBlocksAux_length _ _ le_rfl, splitBlocksAux_dropLast _ _ le_rfl,
    splitBlocksAux_getLast _ _ le_rfl (List.length_pos.mp h0),
    splitBlocksAux_mem_ne_nil _ _, ?_⟩
  rw [h2.1, h1.1, List.append_assoc]

theorem C4_block_partition_witness :
    (splitBlocks wSamples).length = (wSamples.length + (bufferSize - 1)) / bufferSize ∧
    (∀ b ∈ (splitBlocks wSamples).dropLast, b.length = bufferSize) ∧
    (splitBlocks wSamples).getLast?.map List.length
      = some (if wSamples.length % bufferSize = 0 then bufferSize
          else wSamples.length % bufferSize) ∧
    (∀ b ∈ splitBlocks wSamples, b ≠ []) ∧
    (addPCM16 [1, 2] 1 (addPCM16 cxChunk 0 wPlaying).1).1.audioQueue
      = wPlaying.audioQueue ++ splitBlocks (_processPCM16Chunk cxChunk)
        ++ splitBlocks (_processPCM16Chunk [1, 2]) :=
  C4_block_partition wSamples (by decide) cxChunk [1, 2] 0 1 wPlaying rfl

/-- C5 — one scheduling pass schedules blocks in FIFO queue order with each
start time equal to `max(cursor, now)` and the cursor advancing to start
plus duration (the `SchedChain` conjunct); and along any trace of
operations that never resets the cursor (no `stop()`, `ingest` only while
the loop runs), the scheduled events plus the remaining queue equal the
original queue plus everything ingested, in order, while all assigned
start times are monotonically non-decreasing from the initial cursor — so
no unit starts before a unit enqueued earlier. -/
theorem C5_fifo_monotone (s : Streamer) (now : ℚ) (ops : List Op)
    (h : OkTrace s ops) :
    SchedChain now s.scheduledTime (scheduleNextBuffer now s).2
      (scheduleNextBuffer now s).1.scheduledTime ∧
    (runOps ops s).2.1.map Sched.data ++ (runOps ops s).1.audioQueue
      = s.audioQueue ++ ops.flatMap opBlocks ∧
    List.Chain' (· ≤ ·) (s.scheduledTime :: ((runOps ops s).2.1.map Sched.start
      ++ [(runOps ops s).1.scheduledTime])) :=
  ⟨scheduleNextBuffer_chain now s, runOps_queue ops s h, runOps_chain ops s h⟩

theorem C5_fifo_monotone_witness :
    SchedChain 0 wPlaying.scheduledTime (scheduleNextBuffer 0 wPlaying).2
      (scheduleNextBuffer 0 wPlaying).1.scheduledTime ∧
    (runOps [Op.tick 0, Op.ended 5] wPlaying).2.1.map Sched.data
        ++ (runOps [Op.tick 0, Op.ended 5] wPlaying).1.audioQueue
      = wPlaying.audioQueue ++ [Op.tick 0, Op.ended 5].flatMap opBlocks ∧
    List.Chain' (· ≤ ·) (wPlaying.scheduledTime
      :: ((runOps [Op.tick 0, Op.ended 5] wPlaying).2.1.map Sched.start
        ++ [(runOps [Op.tick 0, Op.ended 5] wPlaying).1.scheduledTime])) :=
  C5_fifo_monotone wPlaying 0 [Op.tick 0, Op.ended 5] ⟨trivial, trivial, trivial⟩

/-- C6 — after every call to `stop()`: `isPlaying = false`,
`isStreamComplete = true`, the playback queue is empty, every unit of the
active set has been force-stopped (the returned list; per-unit errors from
already-finished units are swallowed in the source) and the set is empty,
the scheduled-time cursor equals the current time of the call, and the
recheck timer is cancelled. -/
theorem C6_stop_postconditions (s : Streamer) (now : ℚ) :
    (stop now s).1.isPlaying = false ∧
    (stop now s).1.isStreamComplete = true ∧
    (stop now s).1.audioQueue = [] ∧
    (stop now s).1.activeSources = [] ∧
    (stop now s).2 = s.activeSources ∧
    (stop now s).1.scheduledTime = now ∧
    (stop now s).1.checkInterval = false :=
  ⟨rfl, rfl, rfl, rfl, rfl, rfl, rfl⟩

/-- C7 — `stop()` leaves the whole ambient-pad state (gain node with its
in-progress ramps, oscillators, filter), the shared gain stage connection,
the keep-alive oscillator, the installed `onended` handlers, the
end-of-queue marker and the id counter unchanged: only queue, active set,
flags, cursor and recheck timer are modified. -/
theorem C7_stop_pad_frame (s : Streamer) (now : ℚ) :
    (stop now s).1.padGain = s.padGain ∧
    (stop now s).1.padOscillators = s.padOscillators ∧
    (stop now s).1.padFilter = s.padFilter ∧
    (stop now s).1.gainConnected = s.gainConnected ∧
    (stop now s).1.keepAliveOscillator = s.keepAliveOscillator ∧
    (stop now s).1.handlers = s.handlers ∧
    (stop now s).1.endOfQueueAudioSource = s.endOfQueueAudioSource ∧
    (stop now s).1.nextId = s.nextId :=
  ⟨rfl, rfl, rfl, rfl, rfl, rfl, rfl, rfl⟩

/-- C8 — with a per-sample decode-failure oracle, the output block always
has length `⌊bytes / 2⌋` (the failing sample is skipped, its slot keeps the
pre-allocated 0), every non-failing sample is still decoded to
`int16 / 32768`, and an `ingest` of such a chunk still appends its blocks
behind the existing queue with the stream playing and not complete — a
per-sample failure never aborts the block, never empties the queue and
never halts the stream. -/
theorem C8_decode_failure (fail : Nat → Bool) (chunk : List Byte) (s : Streamer)
    (now : ℚ) (i : Nat) (hi : i < chunk.length / 2) (hf : fail i = false)
    (hp : s.isPlaying = true) :
    (_processPCM16ChunkF fail chunk).length = chunk.length / 2 ∧
    (_processPCM16ChunkF fail chunk).getD i 0 = (int16At chunk i : ℚ) / 32768 ∧
    (addPCM16F fail chunk now s).1.audioQueue
      = s.audioQueue ++ splitBlocks (_processPCM16ChunkF fail chunk) ∧
    (addPCM16F fail chunk now s).1.isPlaying = true ∧
    (addPCM16F fail chunk now s).1.isStreamComplete = false := by
  refine ⟨by simp [_processPCM16ChunkF], ?_, ?_,
    enqueueSamples_isPlaying _ _ _, enqueueSamples_isStreamComplete _ _ _⟩
  · simp [_processPCM16ChunkF, List.getD_eq_getElem?_getD, List.getElem?_map,
      List.getElem?_range, hi, hf]
  · unfold addPCM16F
    rw [enqueueSamples_playing _ _ _ hp]

theorem C8_decode_failure_witness :
    (_processPCM16ChunkF wFail wChunk3).length = wChunk3.length / 2 ∧
    (_processPCM16ChunkF wFail wChunk3).getD 0 0 = (int16At wChunk3 0 : ℚ) / 32768 ∧
    (addPCM16F wFail wChunk3 0 wPlaying).1.audioQueue
      = wPlaying.audioQueue ++ splitBlocks (_processPCM16ChunkF wFail wChunk3) ∧
    (addPCM16F wFail wChunk3 0 wPlaying).1.isPlaying = true ∧
    (addPCM16F wFail wChunk3 0 wPlaying).1.isStreamComplete = false :=
  C8_decode_failure wFail wChunk3 wPlaying 0 0 (by decide) (by decide) rfl

/-- C9 — when the pad is already running, a second `startPad` call (any
volume, any time, any fresh random detunes) returns the state unchanged: no
second set of oscillators, filter or gain node is created, so two
consecutive `startPad` calls are observably equivalent to one. -/
theorem C9_startPad_idempotent (s : Streamer) (v now : ℚ) (dets : List ℚ)
    (h : s.padGain.isSome = true) :
    startPad v now dets s = s := by
  unfold startPad
  rw [if_pos h]

theorem C9_startPad_idempotent_witness :
    padRunning.padGain.isSome = true ∧
    startPad (1 / 2) 5 [0, 0, 0] padRunning = padRunning :=
  ⟨rfl, C9_startPad_idempotent padRunning (1 / 2) 5 [0, 0, 0] rfl⟩

/-- C10 (amended) — `ingest` of an odd-length buffer does not raise: the JS
`Float32Array(bytes / 2)` truncates the fractional length, and the final
out-of-range `getInt16` throws inside the per-sample `try/catch` and is
swallowed, so the trailing byte is simply dropped.  Exactly `⌊bytes / 2⌋`
samples are decoded, their blocks are appended to the queue as usual, and
`isStreamComplete` is cleared — for every chunk, odd or even. -/
theorem C10_odd_ingest (chunk : List Byte) (now : ℚ) (s : Streamer) :
    (_processPCM16Chunk chunk).length = chunk.length / 2 ∧
    (addPCM16 chunk now s).1.isStreamComplete = false ∧
    (addPCM16 chunk now s).2.map Sched.data ++ (addPCM16 chunk now s).1.audioQueue
      = s.audioQueue ++ splitBlocks (_processPCM16Chunk chunk) :=
  ⟨by simp [_processPCM16Chunk], enqueueSamples_isStreamComplete _ _ _,
    enqueueSamples_queue _ _ _⟩

/-- C10 counterexample — `ingest` of the odd 3-byte buffer `[1, 2, 3]` on a
playing state completes without raising and appends a one-sample block
(`513 / 32768`, decoded from the first two bytes), so the playback queue is
NOT unchanged: the claim that an odd-length ingest raises before any block
is appended is false on the code. -/
theorem C10_counterexample :
    ([1, 2, 3] : List Byte).length % 2 = 1 ∧
    (addPCM16 [1, 2, 3] 0 wPlaying).1.audioQueue
      = [[1 / 8], [(513 : ℚ) / 32768]] := by
  decide
